import Mathlib

/-!
Verification of the Target offline scrapper (`src/scrapper.py`) against its
natural-language specification.

The Python program is shallowly embedded as executable Lean definitions:

* product-card fragments are records whose fields hold the results of the
  structural DOM queries the code performs (BeautifulSoup is an external
  collaborator supplying `select_one` / `select` / `find(string=...)` results);
* each regular expression of the source is hand-compiled into a deterministic
  matcher proved against Python `re` semantics at the call sites used
  (the patterns involved admit no backtracking ambiguity);
* `urllib.parse.urljoin` / `urlparse` are modelled after CPython's
  `urllib/parse.py` for `allow_fragments=True`;
* Python `float` round-tripping in `f"{float(m.group(1))}/5"` is modelled as
  decimal normalisation (strip leading zeros of the integer part, trailing
  zeros of the fractional part, defaulting each part to "0"); CPython's float
  repr agrees with this only when it renders as plain decimal (values that
  are 0 or in [1e-4, 1e16) with at most 15 significant digits — true of every
  pinned concrete input below, e.g. "4.5" and "7"), and switches to
  scientific notation or "inf" outside that regime, so no universally
  quantified theorem below depends on the numeric rendering: they use only
  the literal "/5" suffix the f-string appends;
* file and CSV I/O is out of scope: documents and the persisted identity set
  are passed in as data.
-/

namespace Scrapper

/-! ### Character and list-of-character utilities -/

/-- ASCII lowercase of a character (`str.lower` / `re.IGNORECASE`, ASCII range;
the patterns used by the source are all ASCII). -/
def lowerChar (c : Char) : Char :=
  if 'A' ≤ c ∧ c ≤ 'Z' then Char.ofNat (c.toNat + 32) else c

/-- Python `\s` on the inputs considered (ASCII whitespace). -/
def isSpace (c : Char) : Bool :=
  c == ' ' || c == '\t' || c == '\n' || c == '\r' || c == '\x0b' || c == '\x0c'

/-- `startsWithC pat l` : does `l` start with `pat`? -/
def startsWithC : List Char → List Char → Bool
  | [], _ => true
  | _ :: _, [] => false
  | p :: ps, c :: cs => p == c && startsWithC ps cs

/-- `containsSub pat hay` : does `pat` occur as a contiguous substring of
`hay`?  Models Python's `in` on strings and `re.search` of a literal. -/
def containsSub (pat : List Char) : List Char → Bool
  | [] => startsWithC pat []
  | c :: t => startsWithC pat (c :: t) || containsSub pat t

/-- Python `pat in hay` for strings. -/
def containsStr (hay pat : String) : Bool :=
  containsSub pat.data hay.data

/-- Case-insensitive substring occurrence (`re.search` of an ASCII literal
compiled with `re.IGNORECASE`). -/
def ciContainsStr (hay pat : String) : Bool :=
  containsSub (pat.data.map lowerChar) (hay.data.map lowerChar)

/-- First occurrence of `sep` in `l`: `(before, some after)` when present,
`(l, none)` otherwise.  Models `str.split(sep, 1)` guarded by `sep in l`. -/
def splitFirst (sep : Char) : List Char → List Char × Option (List Char)
  | [] => ([], none)
  | c :: t =>
    if c == sep then ([], some t)
    else
      let r := splitFirst sep t
      (c :: r.1, r.2)

/-- `str.split('/')`; always returns a nonempty list, `"" ↦ [""]`. -/
def splitSlash : List Char → List (List Char)
  | [] => [[]]
  | c :: t =>
    if c == '/' then [] :: splitSlash t
    else
      match splitSlash t with
      | [] => [[c]]
      | s :: ss => (c :: s) :: ss

/-- `'/'.join`. -/
def joinSlash : List (List Char) → List Char
  | [] => []
  | [x] => x
  | x :: xs => x ++ '/' :: joinSlash xs

/-! ### Hand-compiled regular expressions of the source -/

/-- Tail `\s*out\s*of\s*5` of the rating pattern, anchored at the head. -/
def ratingTail (l : List Char) : Bool :=
  let l1 := l.dropWhile isSpace
  startsWithC "out".data l1 &&
    (let l2 := (l1.drop 3).dropWhile isSpace
     startsWithC "of".data l2 &&
       (let l3 := (l2.drop 2).dropWhile isSpace
        startsWithC "5".data l3))

/-- Anchored match of `(\d+(?:\.\d+)?)\s*out\s*of\s*5`, returning the captured
integer and fractional digits.  Greedy `\d+` needs no backtracking here: the
character after a maximal digit run can never re-match `\.`, `\s*` or `out`,
and if the optional fractional group starts but the tail then fails, dropping
the group leaves a `.` where the tail must start, which also fails. -/
def ratingMatchAt (l : List Char) : Option (List Char × List Char) :=
  let ds := l.takeWhile Char.isDigit
  if ds.isEmpty then none
  else
    let r1 := l.dropWhile Char.isDigit
    if startsWithC ".".data r1 then
      let fs := (r1.drop 1).takeWhile Char.isDigit
      if fs.isEmpty then
        if ratingTail r1 then some (ds, []) else none
      else if ratingTail ((r1.drop 1).dropWhile Char.isDigit) then some (ds, fs)
      else none
    else if ratingTail r1 then some (ds, []) else none

/-- `re.search` of the rating pattern: leftmost anchored match. -/
def ratingSearch : List Char → Option (List Char × List Char)
  | [] => none
  | c :: t =>
    match ratingMatchAt (c :: t) with
    | some r => some r
    | none => ratingSearch t

/-- `re.search(r'(\d+)', s)`: first maximal digit run. -/
def firstDigitRun : List Char → Option (List Char)
  | [] => none
  | c :: t =>
    if c.isDigit then some (c :: t.takeWhile Char.isDigit) else firstDigitRun t

/-- `s.replace(",", "")`. -/
def removeCommas (l : List Char) : List Char :=
  l.filter (fun c => !(c == ','))

/-- `\d+ left` anchored (maximal digit run then the literal). -/
def invNumLeft (l : List Char) : Bool :=
  let ds := l.takeWhile Char.isDigit
  !ds.isEmpty && startsWithC " left".data (l.dropWhile Char.isDigit)

/-- `only \d+ left` anchored. -/
def invOnlyLeft (l : List Char) : Bool :=
  startsWithC "only ".data l && invNumLeft (l.drop 5)

/-- `only \d+ in stock` anchored. -/
def invOnlyStock (l : List Char) : Bool :=
  startsWithC "only ".data l &&
    (let r := l.drop 5
     let ds := r.takeWhile Char.isDigit
     !ds.isEmpty && startsWithC " in stock".data (r.dropWhile Char.isDigit))

/-- The inventory alternation, anchored at the head of an
already-lowercased text. -/
def invAt (l : List Char) : Bool :=
  invOnlyLeft l || invNumLeft l || invOnlyStock l || startsWithC "low stock".data l

/-- Does the alternation match anywhere in `l` (already lowercased)? -/
def invSearch : List Char → Bool
  | [] => invAt []
  | c :: t => invAt (c :: t) || invSearch t

/-- `re.search(r'only \d+ left|\d+ left|only \d+ in stock|low stock', s,
re.IGNORECASE)` viewed as a Boolean (the code only tests matchhood). -/
def invMatches (s : String) : Bool :=
  invSearch (s.data.map lowerChar)

/-- `re.search(r'/A-(\d+)', s)`: digits immediately after the first `/A-`
that is followed by at least one digit. -/
def tcinSearch : List Char → Option (List Char)
  | '/' :: 'A' :: '-' :: r =>
    let ds := r.takeWhile Char.isDigit
    if ds.isEmpty then tcinSearch ('A' :: '-' :: r) else some ds
  | _ :: t => tcinSearch t
  | [] => none

/-! ### Python float formatting -/

/-- `f"{float(s)}"` for a capture `s` of shape `\d+(\.\d+)?`, as decimal
normalisation.  Exact only where CPython renders a plain decimal (see the
header); universal theorems below therefore treat this value as opaque and
rely only on the "/5" suffix appended around it, while pinned concrete
inputs stay inside the exact regime. -/
def pyFloatRepr (ip fp : List Char) : String :=
  let i := ip.dropWhile (fun c => c == '0')
  let i := if i.isEmpty then ['0'] else i
  let f := (fp.reverse.dropWhile (fun c => c == '0')).reverse
  let f := if f.isEmpty then ['0'] else f
  String.mk (i ++ '.' :: f)

/-- `str(n)` for a nonnegative `int` (used through `f"{filled + half*0.5}/5"`,
whose integer part is the full-star count). -/
def natToChars (n : Nat) : List Char :=
  if h : n < 10 then [Char.ofNat (48 + n)]
  else natToChars (n / 10) ++ [Char.ofNat (48 + n % 10)]
decreasing_by exact Nat.div_lt_self (by omega) (by omega)

/-! ### `urllib.parse` model (CPython `urllib/parse.py`, allow_fragments) -/

/-- CPython `uses_relative`. -/
def usesRelative : List String :=
  ["", "ftp", "http", "gopher", "nntp", "imap", "wais", "file", "https",
   "shttp", "mms", "prospero", "rtsp", "rtspu", "sftp", "svn", "svn+ssh",
   "ws", "wss"]

/-- CPython `uses_netloc`. -/
def usesNetloc : List String :=
  ["", "ftp", "http", "gopher", "nntp", "telnet", "imap", "wais", "file",
   "mms", "https", "shttp", "snews", "prospero", "rtsp", "rtspu", "rsync",
   "svn", "svn+ssh", "sftp", "nfs", "git", "git+ssh", "ws", "wss"]

/-- CPython `uses_params`. -/
def usesParams : List String :=
  ["", "ftp", "hdl", "prospero", "http", "imap", "https", "shttp", "rtsp",
   "rtspu", "sip", "sips", "mms", "sftp", "tel"]

/-- Characters allowed in a scheme after the first (CPython `scheme_chars`). -/
def isSchemeChar (c : Char) : Bool :=
  c.isAlpha || c.isDigit || c == '+' || c == '-' || c == '.'

/-- The scheme-splitting step of `urlsplit`: if there is a colon preceded by a
nonempty run of scheme characters starting with an ASCII letter, the prefix
(lowercased) is the scheme; otherwise the default applies. -/
def splitScheme (l : List Char) (dflt : String) : String × List Char :=
  match splitFirst ':' l with
  | (_, none) => (dflt, l)
  | (pre, some rest) =>
    match pre with
    | [] => (dflt, l)
    | c0 :: _ =>
      if c0.isAlpha ∧ ∀ c ∈ pre, isSchemeChar c then
        (String.mk (pre.map lowerChar), rest)
      else (dflt, l)

/-- `_splitnetloc`: the netloc extends to the first `/`, `?` or `#`. -/
def notNetlocEnd (c : Char) : Bool :=
  !(c == '/' || c == '?' || c == '#')

/-- Result of `urlsplit` (no params). -/
structure SplitResult where
  scheme : String
  netloc : String
  path : String
  query : String
  fragment : String
deriving DecidableEq

/-- A C0 control character or the space character (the set CPython
left-strips from a URL). -/
def isC0Space (c : Char) : Bool :=
  decide (c.toNat ≤ 32)

/-- Not one of the unsafe bytes CPython removes from a URL
(tab, carriage return, newline). -/
def keepChar (c : Char) : Bool :=
  !(c == '\t' || c == '\r' || c == '\n')

/-- CPython's WHATWG sanitisation in `urlsplit`: left-strip C0 controls and
space, then remove every tab, carriage return and newline. -/
def whatwgClean (l : List Char) : List Char :=
  (l.dropWhile isC0Space).filter keepChar

/-- CPython `urlsplit(url, scheme0, allow_fragments=True)`.  The `ValueError`s
for unbalanced IPv6 brackets and for malformed netlocs are not modelled (no
claim involves such inputs; the default scheme is always an already-clean
constant here, so its stripping is omitted as well). -/
def urlsplit (url : String) (scheme0 : String) : SplitResult :=
  let sp := splitScheme (whatwgClean url.data) scheme0
  let np :=
    if startsWithC "//".data sp.2 then
      ((sp.2.drop 2).takeWhile notNetlocEnd, (sp.2.drop 2).dropWhile notNetlocEnd)
    else ([], sp.2)
  let fp := splitFirst '#' np.2
  let qp := splitFirst '?' fp.1
  ⟨sp.1, String.mk np.1, String.mk qp.1, String.mk (qp.2.getD []),
    String.mk (fp.2.getD [])⟩

/-- `(before-last-slash-inclusive, last-segment)` of `l`. -/
def lastSlashSplit (l : List Char) : List Char × List Char :=
  let segR := l.reverse.takeWhile (fun c => !(c == '/'))
  (l.take (l.length - segR.length), segR.reverse)

/-- CPython `_splitparams` on the path component. -/
def splitparams (l : List Char) : List Char × List Char :=
  if l.contains '/' then
    let (pre, seg) := lastSlashSplit l
    match splitFirst ';' seg with
    | (_, none) => (l, [])
    | (a, some b) => (pre ++ a, b)
  else
    match splitFirst ';' l with
    | (_, none) => (l, [])
    | (a, some b) => (a, b)

/-- Result of `urlparse` (the 6-tuple). -/
structure ParseResult where
  scheme : String
  netloc : String
  path : String
  params : String
  query : String
  fragment : String
deriving DecidableEq

/-- CPython `urlparse(url, scheme0, allow_fragments=True)`. -/
def urlparse (url : String) (scheme0 : String := "") : ParseResult :=
  let s := urlsplit url scheme0
  let (path, params) :=
    if s.scheme ∈ usesParams ∧ ';' ∈ s.path.data then
      splitparams s.path.data
    else (s.path.data, [])
  ⟨s.scheme, s.netloc, String.mk path, String.mk params, s.query, s.fragment⟩

/-- CPython `urlunsplit`. -/
def urlunsplit (scheme netloc url query fragment : List Char) : List Char :=
  let url1 :=
    if netloc ≠ [] ∨ (url ≠ [] ∧ startsWithC "//".data url) then
      '/' :: '/' :: netloc ++
        (if url ≠ [] ∧ ¬ startsWithC "/".data url then '/' :: url else url)
    else url
  let url2 := if scheme ≠ [] then scheme ++ ':' :: url1 else url1
  let url3 := if query ≠ [] then url2 ++ '?' :: query else url2
  if fragment ≠ [] then url3 ++ '#' :: fragment else url3

/-- CPython `urlunparse`. -/
def urlunparse (scheme netloc url params query fragment : List Char) :
    List Char :=
  let u := if params ≠ [] then url ++ ';' :: params else url
  urlunsplit scheme netloc u query fragment

/-- CPython's base-part deletion: `if base_parts[-1] != '': del base_parts[-1]`. -/
def dropLastUnlessEmpty (l : List (List Char)) : List (List Char) :=
  if l.getLast? = some [] then l else l.dropLast

/-- CPython's `segments[1:-1] = filter(None, segments[1:-1])`. -/
def filterMiddle : List (List Char) → List (List Char)
  | [] => []
  | [x] => [x]
  | x :: xs => x :: ((xs.dropLast.filter (fun s => !s.isEmpty)) ++ [xs.getLast?.getD []])

/-- Dot-segment resolution loop of `urljoin` (`resolved_path`). -/
def resolveSegs (segs : List (List Char)) : List (List Char) :=
  segs.foldl
    (fun acc seg =>
      if seg = ['.', '.'] then acc.dropLast
      else if seg = ['.'] then acc
      else acc ++ [seg])
    []

/-- CPython `urljoin(base, url)` with `allow_fragments=True`. -/
def urljoin (base url : String) : String :=
  if base = "" then url
  else if url = "" then base
  else
    let b := urlparse base ""
    let u := urlparse url b.scheme
    if u.scheme ≠ b.scheme ∨ u.scheme ∉ usesRelative then url
    else
      let netloc :=
        if u.scheme ∈ usesNetloc then
          if u.netloc ≠ "" then u.netloc else b.netloc
        else u.netloc
      if u.scheme ∈ usesNetloc ∧ u.netloc ≠ "" then
        String.mk (urlunparse u.scheme.data u.netloc.data u.path.data
          u.params.data u.query.data u.fragment.data)
      else if u.path = "" ∧ u.params = "" then
        let query := if u.query = "" then b.query else u.query
        String.mk (urlunparse u.scheme.data netloc.data b.path.data
          b.params.data query.data u.fragment.data)
      else
        let baseParts := dropLastUnlessEmpty (splitSlash b.path.data)
        let segments :=
          if startsWithC "/".data u.path.data then splitSlash u.path.data
          else filterMiddle (baseParts ++ splitSlash u.path.data)
        let resolved := resolveSegs segments
        let resolved :=
          if segments.getLast? = some ['.'] ∨ segments.getLast? = some ['.', '.'] then
            resolved ++ [[]]
          else resolved
        let path := joinSlash resolved
        let path := if path.isEmpty then ['/'] else path
        String.mk (urlunparse u.scheme.data netloc.data path
          u.params.data u.query.data u.fragment.data)

/-- The base origin of the source (`base_url`, line 73). -/
def baseUrl : String := "https://www.target.com"

/-- Identity normalisation, lines 86–88 of the source:
`urljoin` against the base origin, `urlparse`, then
`f"{parsed.scheme}://{parsed.netloc}{parsed.path}"`. -/
def normalizeIdentity (href : String) : String :=
  let p := urlparse (urljoin baseUrl href) ""
  p.scheme ++ "://" ++ p.netloc ++ p.path

/-! ### The document model

A product-card fragment is a record of the results of the structural queries
the source performs on a card container; the parsed-document handle supplying
them is an external collaborator (spec §6).  Text is stored as returned by
`get_text(strip=True)`. -/

/-- An `<a>` descendant of a card container. -/
structure Anchor where
  href : Option String
  dataTest : Option String
  text : String
deriving DecidableEq

/-- A descendant element that may carry an `aria-label` attribute. -/
structure AriaElem where
  tag : String
  ariaLabel : Option String
deriving DecidableEq

/-- A descendant element carrying a `data-test` attribute, with its stripped
text. -/
structure DTElem where
  dataTest : String
  text : String
deriving DecidableEq

/-- A candidate product-card container: its own `data-test` attribute plus the
query channels the extractors use, each in document order.  `starsSvgs` holds
the `data-test` attributes of the `svg` descendants of the first
`div[data-test="rating-stars"]`, when that container exists; `strings` holds
the text nodes traversed by `find(string=...)`. -/
structure Fragment where
  dataTest : String
  anchors : List Anchor
  ariaElems : List AriaElem
  starsSvgs : Option (List String)
  dataTestElems : List DTElem
  strings : List String
deriving DecidableEq

/-- A parsed document: its card-container candidates in document order. -/
def Document := List Fragment

/-- The product record built by `extract_product_data` (its `product` dict;
`sold_by_target` is the literal "Yes"/"No" the source stores). -/
structure Product where
  url : String
  title : String
  brand : String
  price : String
  rating : String
  reviews : String
  inventory : String
  sold_by_target : String
  seller_name : String
  tcin : String
deriving DecidableEq

/-! ### Field extractors (lines 15–70) -/

/-- The CSS filter `[aria-label*="out of 5 stars"]`. -/
def ariaRatingSel (e : AriaElem) : Bool :=
  match e.ariaLabel with
  | some l => containsStr l "out of 5 stars"
  | none => false

/-- Rating strategy 1 (lines 18–22): accessibility label. -/
def ratingStrat1 (c : Fragment) : Option String :=
  match c.ariaElems.find? ariaRatingSel with
  | none => none
  | some e =>
    match e.ariaLabel with
    | none => none
    | some l =>
      match ratingSearch l.data with
      | some (ip, fp) => some (pyFloatRepr ip fp ++ "/5")
      | none => none

/-- Rating strategy 2 (lines 23–27): star-icon count. -/
def ratingStrat2 (c : Fragment) : Option String :=
  match c.starsSvgs with
  | none => none
  | some svgs =>
    let filled := (svgs.filter (fun d => containsStr d "full-star")).length
    let half := !(svgs.filter (fun d => containsStr d "half-star")).isEmpty
    some (String.mk (natToChars filled) ++ (if half then ".5" else ".0") ++ "/5")

/-- Rating strategy 3 (lines 28–32): free-text search. -/
def ratingStrat3 (c : Fragment) : Option String :=
  match c.strings.find? (fun s => containsStr s "out of 5") with
  | none => none
  | some t =>
    match ratingSearch t.data with
    | some (ip, fp) => some (pyFloatRepr ip fp ++ "/5")
    | none => none

/-- `extract_star_rating` (lines 15–33). -/
def extract_star_rating : Option Fragment → String
  | none => "N/A"
  | some c =>
    match ratingStrat1 c with
    | some r => r
    | none =>
      match ratingStrat2 c with
      | some r => r
      | none =>
        match ratingStrat3 c with
        | some r => r
        | none => "N/A"

/-- `extract_review_count` (lines 35–47). -/
def extract_review_count : Option Fragment → String
  | none => "0"
  | some c =>
    match c.dataTestElems.find? (fun e => e.dataTest == "rating-count") with
    | some e =>
      match firstDigitRun (removeCommas e.text.data) with
      | some ds => String.mk ds
      | none => "0"
    | none =>
      match c.strings.find? (fun s => containsStr s "review" || containsStr s "rating") with
      | some t =>
        match firstDigitRun (removeCommas t.data) with
        | some ds => String.mk ds
        | none => "0"
      | none => "0"

/-- `extract_inventory_count` (lines 49–56). -/
def extract_inventory_count : Option Fragment → String
  | none => "N/A"
  | some c =>
    match c.strings.find? (fun s => invMatches s) with
    | some t =>
      match firstDigitRun t.data with
      | some ds => String.mk ds
      | none => "Low Stock"
    | none => "N/A"

/-- `is_sold_by_target` (lines 58–70). -/
def is_sold_by_target : Option Fragment → String
  | none => "No"
  | some c =>
    if (c.strings.find? (fun s => ciContainsStr s "only at target")).isSome then "Yes"
    else if (c.ariaElems.find? (fun e => e.tag == "svg" && e.ariaLabel == some "Target logo")).isSome then "Yes"
    else if (c.strings.find? (fun s => ciContainsStr s "sold by target")).isSome then "Yes"
    else "No"

/-! ### Card locator and assembler (lines 72–119) -/

/-- The container selector
`div[data-test*="product-card"], div[data-test*="@web/ProductCard"]`
(line 77): document-order candidates whose `data-test` contains either
card-type token. -/
def productContainers (doc : Document) : List Fragment :=
  doc.filter (fun c =>
    containsStr c.dataTest "product-card" || containsStr c.dataTest "@web/ProductCard")

/-- The title-link selector `a[href*="/p/"][data-test="product-title"]`
(line 82). -/
def titleLink (c : Fragment) : Option Anchor :=
  c.anchors.find? (fun a =>
    (match a.href with
     | some h => containsStr h "/p/"
     | none => false) && a.dataTest == some "product-title")

/-- `container.select_one('[data-test*="brand"]')` text (lines 98–99). -/
def brandText (c : Fragment) : Option String :=
  (c.dataTestElems.find? (fun e => containsStr e.dataTest "brand")).map (·.text)

/-- `container.select_one('[data-test="current-price"]')` text (lines 101–104). -/
def currentPriceText (c : Fragment) : Option String :=
  (c.dataTestElems.find? (fun e => e.dataTest == "current-price")).map (·.text)

/-- `re.search(r'/A-(\d+)', clean_url)` wrapped as on lines 114–115. -/
def tcinOf (u : String) : String :=
  match tcinSearch u.data with
  | some ds => String.mk ds
  | none => "N/A"

/-- The record assembled for a container once it has survived all checks
(lines 92–117), as a function of the container and its clean URL. -/
def buildProduct (c : Fragment) (u : String) : Product where
  url := u
  title := ((titleLink c).map (·.text)).getD ""
  brand := (brandText c).getD "N/A"
  price := (currentPriceText c).getD ""
  rating := extract_star_rating (some c)
  reviews := extract_review_count (some c)
  inventory := extract_inventory_count (some c)
  sold_by_target := is_sold_by_target (some c)
  seller_name := if is_sold_by_target (some c) = "Yes" then "Target" else "N/A"
  tcin := tcinOf u

/-- One iteration of the container loop (lines 79–117): given the current
`seen_urls`, either skip the container (`continue`) or emit a record; the
clean URL is added to `seen_urls` as soon as it is computed (line 91), before
the title and price checks. -/
def processContainer (seen : List String) (c : Fragment) :
    Option Product × List String :=
  match titleLink c with
  | none => (none, seen)
  | some link =>
    match link.href with
    | none => (none, seen)
    | some h =>
      let cleanUrl := normalizeIdentity h
      if cleanUrl ∈ seen then (none, seen)
      else
        let seen1 := cleanUrl :: seen
        if link.text = "" then (none, seen1)
        else
          match currentPriceText c with
          | none => (none, seen1)
          | some _ => (some (buildProduct c cleanUrl), seen1)

/-- The container loop threading `seen_urls` and collecting `products` in
document order. -/
def extractGo (seen : List String) : List Fragment → List Product
  | [] => []
  | c :: cs =>
    match processContainer seen c with
    | (some p, seen1) => p :: extractGo seen1 cs
    | (none, seen1) => extractGo seen1 cs

/-- `extract_product_data` (lines 72–119). -/
def extract_product_data (doc : Document) : List Product :=
  extractGo [] (productContainers doc)

/-! ### Dedup/merge across documents (lines 131–163, minus file I/O) -/

/-- Line 150: `[p for p in products if p['url'] not in existing_urls]`. -/
def dedupNew (existing : List String) (products : List Product) : List Product :=
  products.filter (fun p => decide (p.url ∉ existing))

/-- `scrape_all_pages` with the documents supplied as data and
`load_existing_products()` passed in as `existing`: per document, extract,
filter against the known-identity set, extend the output and grow the set
(lines 147–155).  Returns the accumulated novel records and the final
identity set. -/
def scrape_all_pages (existing : List String) :
    List Document → List Product × List String
  | [] => ([], existing)
  | d :: ds =>
    let products := extract_product_data d
    let newProducts := dedupNew existing products
    let existing1 := existing ++ newProducts.map (fun p => p.url)
    let (rest, existing2) := scrape_all_pages existing1 ds
    (newProducts ++ rest, existing2)

/-! ### Specification-side definitions

These follow the spec's words, for the refinement-style claims; they are
compared against the source-derived definitions in the theorems below. -/

/-- The identity a container resolves to at lines 82–88, if any. -/
def resolvesTo (c : Fragment) : Option String :=
  match titleLink c with
  | none => none
  | some link =>
    match link.href with
    | none => none
    | some h => some (normalizeIdentity h)

/-- A pattern token of the spec's inventory phrase list: a literal, or a
number `N`. -/
inductive InvTok where
  | lit : String → InvTok
  | num : InvTok
deriving DecidableEq

/-- Modelled from the spec: the inventory patterns
"only N left", "N left", "only N in stock", "low stock". -/
def specInvPatterns : List (List InvTok) :=
  [[InvTok.lit "only ", InvTok.num, InvTok.lit " left"],
   [InvTok.num, InvTok.lit " left"],
   [InvTok.lit "only ", InvTok.num, InvTok.lit " in stock"],
   [InvTok.lit "low stock"]]

/-- Anchored match of one spec pattern against (lowercased) text. -/
def specTokMatch : List InvTok → List Char → Bool
  | [], _ => true
  | InvTok.lit s :: ts, l =>
    startsWithC s.data l && specTokMatch ts (l.drop s.data.length)
  | InvTok.num :: ts, l =>
    !(l.takeWhile Char.isDigit).isEmpty && specTokMatch ts (l.dropWhile Char.isDigit)

/-- Does a spec pattern occur anywhere in `l`? -/
def specTokSearch (p : List InvTok) : List Char → Bool
  | [] => specTokMatch p []
  | c :: t => specTokMatch p (c :: t) || specTokSearch p t

/-- Modelled from the spec: "search fragment text for patterns …
(case-insensitive)". -/
def specPhraseMatch (s : String) : Bool :=
  specInvPatterns.any (fun p => specTokSearch p (s.data.map lowerChar))

/-- The inventory extractor as the amended claim describes it: from the first
text node containing one of the phrases, return the first digit run occurring
anywhere in that node — which need not be the `N` of the matched phrase —
else the literal "Low Stock", else the unknown sentinel.  The phrase list is
the spec's; the digit extraction is the whole-node
`re.search(r'(\d+)', inventory_elem)` the source performs at line 54. -/
def nodeFirstDigitInventory : Option Fragment → String
  | none => "N/A"
  | some c =>
    match c.strings.find? (fun s => specPhraseMatch s) with
    | some t =>
      match firstDigitRun t.data with
      | some ds => String.mk ds
      | none => "Low Stock"
    | none => "N/A"

/-- Anchored match of one spec pattern that also reports the `N` the pattern
captured: `some (some ds)` on a match with a number, `some none` on a match
of a number-free pattern, `none` on no match.  Digits are unchanged by
lowercasing, so capturing from the lowercased text equals capturing from the
original. -/
def specTokCapture : List InvTok → List Char → Option (Option (List Char))
  | [], _ => some none
  | InvTok.lit s :: ts, l =>
    if startsWithC s.data l then specTokCapture ts (l.drop s.data.length)
    else none
  | InvTok.num :: ts, l =>
    let ds := l.takeWhile Char.isDigit
    if ds.isEmpty then none
    else
      match specTokCapture ts (l.dropWhile Char.isDigit) with
      | some _ => some (some ds)
      | none => none

/-- First pattern (in the spec's order) matching at this position, with its
capture. -/
def firstCapture : List (List InvTok) → List Char → Option (Option (List Char))
  | [], _ => none
  | p :: ps, l =>
    match specTokCapture p l with
    | some r => some r
    | none => firstCapture ps l

/-- Leftmost occurrence of any phrase in (lowercased) text, with the number
that phrase captured, if any. -/
def specCaptureSearch : List Char → Option (Option (List Char))
  | [] => firstCapture specInvPatterns []
  | c :: t =>
    match firstCapture specInvPatterns (c :: t) with
    | some r => some r
    | none => specCaptureSearch t

/-- Modelled from the spec (§4.2, inventory extractor): "search fragment text
for patterns 'only N left', 'N left', 'only N in stock', 'low stock'
(case-insensitive); return the captured number if present, else the literal
'Low Stock' if the phrase matched without a number, else 'unknown'" — the
captured number being the `N` of the matched phrase.  Text is searched node
by node through the collaborator's find-text-matching-pattern interface
(spec §6). -/
def specInventoryCaptured : Option Fragment → String
  | none => "N/A"
  | some c =>
    match c.strings.find? (fun s => specPhraseMatch s) with
    | some t =>
      match specCaptureSearch (t.data.map lowerChar) with
      | some (some ds) => String.mk ds
      | some none => "Low Stock"
      | none => "N/A"
    | none => "N/A"

/-- The rendered query part of a URL: nothing, or `?` then the query text. -/
def qext : Option String → List Char
  | none => []
  | some s => '?' :: s.data

/-- The rendered fragment part of a URL: nothing, or `#` then the fragment
text. -/
def fext : Option String → List Char
  | none => []
  | some s => '#' :: s.data

/-- Modelled from the spec: a rendered https URL with the given host, path
and optional query and fragment parts. -/
def renderUrl (host path : String) (q f : Option String) : String :=
  "https://" ++ host ++ path ++
    (match q with
     | none => ""
     | some s => "?" ++ s) ++
    (match f with
     | none => ""
     | some s => "#" ++ s)

/-- Modelled from the spec (§3, rating field): the claim's "value of the form
`v/5` with `v` a number in `[0,5]`", read on the strings the source produces:
either the unknown sentinel, or `<int>.<frac>/5` with the whole-number part at
most 5 (and the fractional part zero when it equals 5). -/
def ratingBounded (s : String) : Bool :=
  s == "N/A" ||
    (let l := s.data
     let ds := l.takeWhile Char.isDigit
     let r := l.dropWhile Char.isDigit
     !ds.isEmpty &&
       (match r with
        | '.' :: r2 =>
          let fs := r2.takeWhile Char.isDigit
          !fs.isEmpty && (r2.dropWhile Char.isDigit == ['/', '5']) &&
            (natOfDigits ds < 5 || (natOfDigits ds == 5 && fs.all (fun c => c == '0')))
        | _ => false))
where
  natOfDigits (ds : List Char) : Nat :=
    ds.foldl (fun acc c => 10 * acc + (c.toNat - 48)) 0

/-! ### Concrete fixtures

Small concrete documents used to evaluate the theorems below on explicit
inputs. -/

/-- The spec's §8 end-to-end sample card. -/
def fragHero : Fragment :=
  ⟨"product-card-default",
   [⟨some "/p/hero-figure/-/A-123?ref=x", some "product-title", "Hero Figure X"⟩],
   [⟨"div", some "4 out of 5 stars"⟩], none,
   [⟨"current-price", "$19.99"⟩],
   ["sold by target", "128 ratings"]⟩

/-- `fragHero`'s normalized identity. -/
def urlHero : String := "https://www.target.com/p/hero-figure/-/A-123"

/-- A card fragment with a resolvable identity and title but no
current-price marker. -/
def fragBetaNoPrice : Fragment :=
  ⟨"product-card", [⟨some "/p/beta/-/A-77?x=1", some "product-title", "Beta Toy"⟩],
   [], none, [], []⟩

/-- A fully valid card with the same identity as `fragBetaNoPrice`. -/
def fragBetaValid : Fragment :=
  ⟨"product-card", [⟨some "/p/beta/-/A-77?y=2", some "product-title", "Beta Toy"⟩],
   [], none, [⟨"current-price", "$5.00"⟩], []⟩

/-- The normalized identity shared by the beta fragments. -/
def urlBeta : String := "https://www.target.com/p/beta/-/A-77"

/-- Two valid cards with the same identity but different prices. -/
def fragGamma1 : Fragment :=
  ⟨"product-card", [⟨some "/p/gamma/-/A-88", some "product-title", "Gamma"⟩],
   [], none, [⟨"current-price", "$1.00"⟩], []⟩

/-- Second rendering of the gamma card (e.g. a carousel copy). -/
def fragGamma2 : Fragment :=
  ⟨"@web/ProductCard", [⟨some "/p/gamma/-/A-88?z", some "product-title", "Gamma"⟩],
   [], none, [⟨"current-price", "$2.00"⟩], []⟩

/-- The normalized identity shared by the gamma fragments. -/
def urlGamma : String := "https://www.target.com/p/gamma/-/A-88"

/-- A priceless fragment with yet another identity (for the price-check
claim). -/
def fragDelta : Fragment :=
  ⟨"product-card", [⟨some "/p/delta/-/A-44", some "product-title", "Delta"⟩],
   [⟨"div", some "2 out of 5 stars"⟩], none, [⟨"brand-name", "Delta Co"⟩], []⟩

/-- A fragment with two rating accessibility labels; the earlier one wins. -/
def fragTwoLabels : Fragment :=
  ⟨"product-card", [],
   [⟨"div", some "3 out of 5 stars"⟩, ⟨"span", some "4.5 out of 5 stars"⟩],
   none, [], []⟩

/-- A fragment whose only rating label is "4.5 out of 5 stars". -/
def fragOneLabel : Fragment :=
  ⟨"product-card", [], [⟨"span", some "4.5 out of 5 stars"⟩], none, [], []⟩

/-- A fragment with no rating signal at all. -/
def fragEmpty : Fragment := ⟨"product-card", [], [], none, [], []⟩

/-- The record `extract_product_data [fragHero]` produces. -/
def prodHero : Product :=
  ⟨urlHero, "Hero Figure X", "N/A", "$19.99", "4.0/5", "128", "N/A",
   "Yes", "Target", "123"⟩

/-- A valid card whose accessibility label overstates the rating scale. -/
def fragSeven : Fragment :=
  ⟨"product-card", [⟨some "/p/seven/-/A-7", some "product-title", "Seven"⟩],
   [⟨"div", some "7 out of 5 stars"⟩], none, [⟨"current-price", "$3.00"⟩], []⟩

/-- A titleless fragment and a later fully valid card with the same
identity. -/
def fragEpsBad : Fragment :=
  ⟨"product-card", [⟨some "/p/eps/-/A-55", some "product-title", ""⟩],
   [], none, [⟨"current-price", "$9.00"⟩], []⟩

/-- The later, fully valid rendering of the same eps card. -/
def fragEpsGood : Fragment :=
  ⟨"product-card", [⟨some "/p/eps/-/A-55?k", some "product-title", "Eps"⟩],
   [], none, [⟨"current-price", "$9.00"⟩], []⟩

/-- The normalized identity shared by the eps fragments. -/
def urlEps : String := "https://www.target.com/p/eps/-/A-55"

/-- A fragment whose matching text node contains a digit run before the
(number-free) matched phrase. -/
def fragLowStock : Fragment :=
  ⟨"product-card", [], [], none, [], ["24/7 support, low stock"]⟩

/-- A fragment whose matching text node has an earlier digit run than the
`N` of its matched phrase. -/
def fragOnlyFive : Fragment :=
  ⟨"product-card", [], [], none, [], ["2 days only 5 left"]⟩

/-! ### Basic lemmas -/

theorem data_append (s t : String) : (s ++ t).data = s.data ++ t.data := by
  cases s; cases t; rfl

theorem takeWhile_app {p : Char → Bool} (a b : List Char)
    (h : ∀ c ∈ a, p c = true) :
    (a ++ b).takeWhile p = a ++ b.takeWhile p := by
  induction a with
  | nil => rfl
  | cons c t ih =>
    have hc : p c = true := h c (List.mem_cons_self ..)
    simp [List.takeWhile_cons, hc, ih fun x hx => h x (List.mem_cons_of_mem _ hx)]

theorem dropWhile_app {p : Char → Bool} (a b : List Char)
    (h : ∀ c ∈ a, p c = true) :
    (a ++ b).dropWhile p = b.dropWhile p := by
  induction a with
  | nil => rfl
  | cons c t ih =>
    have hc : p c = true := h c (List.mem_cons_self ..)
    simp only [List.cons_append, List.dropWhile_cons, hc, if_true,
      ih fun x hx => h x (List.mem_cons_of_mem _ hx)]

theorem splitFirst_app_of_not_mem (sep : Char) (a b : List Char)
    (h : sep ∉ a) :
    splitFirst sep (a ++ b) =
      (a ++ (splitFirst sep b).1, (splitFirst sep b).2) := by
  induction a with
  | nil => rfl
  | cons c t ih =>
    have hc : ¬(c == sep) = true := by
      simp only [beq_iff_eq]
      intro hh; exact h (hh ▸ List.mem_cons_self ..)
    simp only [List.cons_append, splitFirst, Bool.not_eq_true] at hc ⊢
    simp [hc, ih fun hx => h (List.mem_cons_of_mem _ hx)]

theorem splitFirst_of_not_mem (sep : Char) (l : List Char) (h : sep ∉ l) :
    splitFirst sep l = (l, none) := by
  induction l with
  | nil => rfl
  | cons c t ih =>
    have hc : ¬(c == sep) = true := by
      simp only [beq_iff_eq]
      intro hh; exact h (hh ▸ List.mem_cons_self ..)
    simp only [splitFirst, Bool.not_eq_true] at hc ⊢
    simp only [hc, Bool.false_eq_true, if_false,
      ih fun hx => h (List.mem_cons_of_mem _ hx)]

/-! ### Equation lemmas for `processContainer` -/

theorem processContainer_no_link {c : Fragment} (seen : List String)
    (h : titleLink c = none) : processContainer seen c = (none, seen) := by
  simp [processContainer, h]

theorem processContainer_no_href {c : Fragment} {link : Anchor}
    (seen : List String) (h : titleLink c = some link)
    (h2 : link.href = none) : processContainer seen c = (none, seen) := by
  simp [processContainer, h, h2]

theorem processContainer_seen {c : Fragment} {link : Anchor} {hr : String}
    (seen : List String) (h : titleLink c = some link)
    (h2 : link.href = some hr) (h3 : normalizeIdentity hr ∈ seen) :
    processContainer seen c = (none, seen) := by
  simp [processContainer, h, h2, h3]

theorem processContainer_empty_title {c : Fragment} {link : Anchor}
    {hr : String} (seen : List String) (h : titleLink c = some link)
    (h2 : link.href = some hr) (h3 : normalizeIdentity hr ∉ seen)
    (h4 : link.text = "") :
    processContainer seen c = (none, normalizeIdentity hr :: seen) := by
  simp [processContainer, h, h2, h3, h4]

theorem processContainer_no_price {c : Fragment} {link : Anchor}
    {hr : String} (seen : List String) (h : titleLink c = some link)
    (h2 : link.href = some hr) (h3 : normalizeIdentity hr ∉ seen)
    (h4 : link.text ≠ "") (h5 : currentPriceText c = none) :
    processContainer seen c = (none, normalizeIdentity hr :: seen) := by
  simp [processContainer, h, h2, h3, h4, h5]

theorem processContainer_emit {c : Fragment} {link : Anchor} {hr pr : String}
    (seen : List String) (h : titleLink c = some link)
    (h2 : link.href = some hr) (h3 : normalizeIdentity hr ∉ seen)
    (h4 : link.text ≠ "") (h5 : currentPriceText c = some pr) :
    processContainer seen c =
      (some (buildProduct c (normalizeIdentity hr)), normalizeIdentity hr :: seen) := by
  simp [processContainer, h, h2, h3, h4, h5]

/-- Exhaustive behaviour of one loop iteration: either the container is
skipped with `seen` unchanged (no resolvable identity, or identity already
seen), or its fresh identity `u` is added to `seen` and it either emits
`buildProduct c u` or is dropped by the title/price checks. -/
theorem processContainer_cases (seen : List String) (c : Fragment) :
    (processContainer seen c = (none, seen) ∧
      (resolvesTo c = none ∨ ∃ u, resolvesTo c = some u ∧ u ∈ seen)) ∨
    (∃ u, resolvesTo c = some u ∧ u ∉ seen ∧
      (processContainer seen c = (none, u :: seen) ∨
        processContainer seen c = (some (buildProduct c u), u :: seen))) := by
  cases h : titleLink c with
  | none =>
    exact Or.inl ⟨processContainer_no_link seen h, Or.inl (by simp [resolvesTo, h])⟩
  | some link =>
    cases h2 : link.href with
    | none =>
      exact Or.inl ⟨processContainer_no_href seen h h2, Or.inl (by simp [resolvesTo, h, h2])⟩
    | some hr =>
      have hres : resolvesTo c = some (normalizeIdentity hr) := by
        simp [resolvesTo, h, h2]
      by_cases h3 : normalizeIdentity hr ∈ seen
      · exact Or.inl ⟨processContainer_seen seen h h2 h3,
          Or.inr ⟨_, hres, h3⟩⟩
      · refine Or.inr ⟨_, hres, h3, ?_⟩
        by_cases h4 : link.text = ""
        · exact Or.inl (processContainer_empty_title seen h h2 h3 h4)
        · cases h5 : currentPriceText c with
          | none => exact Or.inl (processContainer_no_price seen h h2 h3 h4 h5)
          | some pr => exact Or.inr (processContainer_emit seen h h2 h3 h4 h5)

/-! ### Lemmas about the container loop -/

theorem extractGo_filter_of_mem (l : List Fragment) (seen : List String)
    (u : String) (hu : u ∈ seen) :
    (extractGo seen l).filter (fun p => p.url == u) = [] := by
  induction l generalizing seen with
  | nil => rfl
  | cons c cs ih =>
    rcases processContainer_cases seen c with ⟨heq, _⟩ | ⟨v, _, hv, heq | heq⟩
    · rw [extractGo, heq]; exact ih seen hu
    · rw [extractGo, heq]; exact ih (v :: seen) (List.mem_cons_of_mem _ hu)
    · rw [extractGo, heq]
      have hvu : ¬((buildProduct c v).url == u) = true := by
        simp only [buildProduct, beq_iff_eq]
        intro hh; exact hv (hh ▸ hu)
      simp only [List.filter_cons, hvu, Bool.false_eq_true, if_false]
      exact ih (v :: seen) (List.mem_cons_of_mem _ hu)

theorem extractGo_count_le_one (l : List Fragment) (seen : List String)
    (u : String) :
    ((extractGo seen l).filter (fun p => p.url == u)).length ≤ 1 := by
  induction l generalizing seen with
  | nil => simp [extractGo]
  | cons c cs ih =>
    rcases processContainer_cases seen c with ⟨heq, _⟩ | ⟨v, _, hv, heq | heq⟩
    · rw [extractGo, heq]; exact ih seen
    · rw [extractGo, heq]; exact ih (v :: seen)
    · rw [extractGo, heq]
      by_cases hvu : v = u
      · subst hvu
        simp only [List.filter_cons, buildProduct, beq_self_eq_true, if_true]
        rw [extractGo_filter_of_mem cs (v :: seen) v (List.mem_cons_self ..)]
        simp
      · have hvu' : ¬((buildProduct c v).url == u) = true := by
          simp only [buildProduct, beq_iff_eq]; exact hvu
        simp only [List.filter_cons, hvu', Bool.false_eq_true, if_false]
        exact ih (v :: seen)

theorem mem_extractGo {p : Product} (l : List Fragment) (seen : List String)
    (h : p ∈ extractGo seen l) :
    ∃ c ∈ l, ∃ s, ∃ u, resolvesTo c = some u ∧ p = buildProduct c u ∧
      (processContainer s c).1 = some p := by
  induction l generalizing seen with
  | nil => simp [extractGo] at h
  | cons c cs ih =>
    rcases processContainer_cases seen c with ⟨heq, _⟩ | ⟨v, hres, _, heq | heq⟩
    · rw [extractGo, heq] at h
      obtain ⟨c', hc', r⟩ := ih seen h
      exact ⟨c', List.mem_cons_of_mem _ hc', r⟩
    · rw [extractGo, heq] at h
      obtain ⟨c', hc', r⟩ := ih (v :: seen) h
      exact ⟨c', List.mem_cons_of_mem _ hc', r⟩
    · rw [extractGo, heq] at h
      rcases List.mem_cons.mp h with rfl | h'
      · exact ⟨c, List.mem_cons_self .., seen, v, hres, rfl, by rw [heq]⟩
      · obtain ⟨c', hc', r⟩ := ih (v :: seen) h'
        exact ⟨c', List.mem_cons_of_mem _ hc', r⟩

/-- Processing containers none of which resolves to `u` can only produce
records with other URLs, and never puts `u` into the seen set; hence the fate
of the first container resolving to `u` is decided with `u` still unseen. -/
theorem extractGo_first_emit (l1 : List Fragment) (c : Fragment)
    (l2 : List Fragment) (seen : List String) {link : Anchor} {hr pr : String}
    (h1 : ∀ c' ∈ l1, resolvesTo c' ≠ some (normalizeIdentity hr))
    (hu : normalizeIdentity hr ∉ seen)
    (h : titleLink c = some link) (h2 : link.href = some hr)
    (h4 : link.text ≠ "") (h5 : currentPriceText c = some pr) :
    (extractGo seen (l1 ++ c :: l2)).filter
        (fun p => p.url == normalizeIdentity hr) =
      [buildProduct c (normalizeIdentity hr)] := by
  induction l1 generalizing seen with
  | nil =>
    rw [List.nil_append, extractGo, processContainer_emit seen h h2 hu h4 h5]
    simp only [List.filter_cons, buildProduct, beq_self_eq_true, if_true]
    rw [extractGo_filter_of_mem l2 _ _ (List.mem_cons_self ..)]
  | cons c' cs ih =>
    rcases processContainer_cases seen c' with ⟨heq, _⟩ | ⟨v, hres, _, heq | heq⟩
    · rw [List.cons_append, extractGo, heq]
      exact ih seen (fun x hx => h1 x (List.mem_cons_of_mem _ hx)) hu
    · rw [List.cons_append, extractGo, heq]
      refine ih (v :: seen) (fun x hx => h1 x (List.mem_cons_of_mem _ hx)) ?_
      intro hmem
      rcases List.mem_cons.mp hmem with rfl | hmem'
      · exact h1 c' (List.mem_cons_self ..) hres
      · exact hu hmem'
    · rw [List.cons_append, extractGo, heq]
      have hvu : ¬((buildProduct c' v).url == normalizeIdentity hr) = true := by
        simp only [buildProduct, beq_iff_eq]
        intro hh; exact h1 c' (List.mem_cons_self ..) (hh ▸ hres)
      simp only [List.filter_cons, hvu, Bool.false_eq_true, if_false]
      refine ih (v :: seen) (fun x hx => h1 x (List.mem_cons_of_mem _ hx)) ?_
      intro hmem
      rcases List.mem_cons.mp hmem with heqv | hmem'
      · exact h1 c' (List.mem_cons_self ..) (heqv ▸ hres)
      · exact hu hmem'

/-- Same setting, but the first container resolving to `u` fails the title or
price check: no record with identity `u` is produced at all, by any later
container. -/
theorem extractGo_first_none (l1 : List Fragment) (c : Fragment)
    (l2 : List Fragment) (seen : List String) {link : Anchor} {hr : String}
    (h1 : ∀ c' ∈ l1, resolvesTo c' ≠ some (normalizeIdentity hr))
    (hu : normalizeIdentity hr ∉ seen)
    (h : titleLink c = some link) (h2 : link.href = some hr)
    (hbad : link.text = "" ∨ currentPriceText c = none) :
    (extractGo seen (l1 ++ c :: l2)).filter
        (fun p => p.url == normalizeIdentity hr) = [] := by
  induction l1 generalizing seen with
  | nil =>
    rw [List.nil_append, extractGo]
    have heq : processContainer seen c = (none, normalizeIdentity hr :: seen) := by
      rcases hbad with h4 | h5
      · exact processContainer_empty_title seen h h2 hu h4
      · by_cases h4 : link.text = ""
        · exact processContainer_empty_title seen h h2 hu h4
        · exact processContainer_no_price seen h h2 hu h4 h5
    rw [heq]
    exact extractGo_filter_of_mem l2 _ _ (List.mem_cons_self ..)
  | cons c' cs ih =>
    rcases processContainer_cases seen c' with ⟨heq, _⟩ | ⟨v, hres, _, heq | heq⟩
    · rw [List.cons_append, extractGo, heq]
      exact ih seen (fun x hx => h1 x (List.mem_cons_of_mem _ hx)) hu
    · rw [List.cons_append, extractGo, heq]
      refine ih (v :: seen) (fun x hx => h1 x (List.mem_cons_of_mem _ hx)) ?_
      intro hmem
      rcases List.mem_cons.mp hmem with rfl | hmem'
      · exact h1 c' (List.mem_cons_self ..) hres
      · exact hu hmem'
    · rw [List.cons_append, extractGo, heq]
      have hvu : ¬((buildProduct c' v).url == normalizeIdentity hr) = true := by
        simp only [buildProduct, beq_iff_eq]
        intro hh; exact h1 c' (List.mem_cons_self ..) (hh ▸ hres)
      simp only [List.filter_cons, hvu, Bool.false_eq_true, if_false]
      refine ih (v :: seen) (fun x hx => h1 x (List.mem_cons_of_mem _ hx)) ?_
      intro hmem
      rcases List.mem_cons.mp hmem with heqv | hmem'
      · exact h1 c' (List.mem_cons_self ..) (heqv ▸ hres)
      · exact hu hmem'

/-- Per document, at most one record per identity (intra-document dedup). -/
theorem extract_count_le_one (doc : Document) (u : String) :
    ((extract_product_data doc).filter (fun p => p.url == u)).length ≤ 1 :=
  extractGo_count_le_one (productContainers doc) [] u

/-! ### Lemmas about the cross-document dedup layer -/

theorem mem_dedupNew {existing : List String} {products : List Product}
    {p : Product} (h : p ∈ dedupNew existing products) :
    p ∈ products ∧ p.url ∉ existing := by
  have := List.mem_filter.mp h
  exact ⟨this.1, of_decide_eq_true this.2⟩

theorem scrape_mono (ds : List Document) (existing : List String) :
    existing ⊆ (scrape_all_pages existing ds).2 := by
  induction ds generalizing existing with
  | nil => exact fun a ha => ha
  | cons d ds ih =>
    intro a ha
    simp only [scrape_all_pages]
    exact ih _ (List.mem_append_left _ ha)

theorem scrape_out_not_mem (ds : List Document) (existing : List String)
    {p : Product} (h : p ∈ (scrape_all_pages existing ds).1) :
    p.url ∉ existing := by
  induction ds generalizing existing with
  | nil => simp [scrape_all_pages] at h
  | cons d ds ih =>
    simp only [scrape_all_pages] at h
    rcases List.mem_append.mp h with hnew | hrest
    · exact (mem_dedupNew hnew).2
    · intro hmem
      exact ih _ hrest (List.mem_append_left _ hmem)

theorem scrape_filter_of_mem (ds : List Document) (existing : List String)
    (u : String) (hu : u ∈ existing) :
    (scrape_all_pages existing ds).1.filter (fun p => p.url == u) = [] := by
  induction ds generalizing existing with
  | nil => rfl
  | cons d ds ih =>
    simp only [scrape_all_pages, List.filter_append]
    rw [List.filter_eq_nil_iff.mpr, List.nil_append]
    · exact ih _ (List.mem_append_left _ hu)
    · intro p hp
      have := mem_dedupNew hp
      simp only [beq_iff_eq]
      intro hh; exact this.2 (hh ▸ hu)

theorem scrape_count_le_one (ds : List Document) (existing : List String)
    (u : String) :
    ((scrape_all_pages existing ds).1.filter (fun p => p.url == u)).length ≤ 1 := by
  induction ds generalizing existing with
  | nil => simp [scrape_all_pages]
  | cons d ds ih =>
    simp only [scrape_all_pages, List.filter_append, List.length_append]
    cases hnil : (dedupNew existing (extract_product_data d)).filter
        (fun p => p.url == u) with
    | nil => simpa [hnil] using ih (existing ++ (dedupNew existing (extract_product_data d)).map (fun p => p.url))
    | cons q qs =>
      have hq : q ∈ (dedupNew existing (extract_product_data d)).filter
          (fun p => p.url == u) := by rw [hnil]; exact List.mem_cons_self ..
      have hqf := List.mem_filter.mp hq
      have hqu : q.url = u := by simpa using hqf.2
      have hmem : u ∈ existing ++ (dedupNew existing (extract_product_data d)).map
          (fun p => p.url) := by
        refine List.mem_append_right _ ?_
        exact hqu ▸ List.mem_map_of_mem _ hqf.1
      rw [scrape_filter_of_mem ds _ u hmem]
      have hle : ((dedupNew existing (extract_product_data d)).filter
          (fun p => p.url == u)).length ≤
          ((extract_product_data d).filter (fun p => p.url == u)).length :=
        List.Sublist.length_le
          (List.Sublist.filter _ (List.filter_sublist _))
      rw [hnil] at hle
      have := extract_count_le_one d u
      simp only [List.length_nil]
      omega

theorem scrape_extract_sub_final (ds : List Document) (existing : List String) :
    ∀ d ∈ ds, ∀ p ∈ extract_product_data d,
      p.url ∈ (scrape_all_pages existing ds).2 := by
  induction ds generalizing existing with
  | nil => intro d hd; simp at hd
  | cons d0 ds ih =>
    intro d hd p hp
    simp only [scrape_all_pages]
    rcases List.mem_cons.mp hd with rfl | hd'
    · by_cases hmem : p.url ∈ existing
      · exact scrape_mono ds _ (List.mem_append_left _ hmem)
      · refine scrape_mono ds _ (List.mem_append_right _ ?_)
        refine List.mem_map_of_mem _ ?_
        exact List.mem_filter.mpr ⟨hp, decide_eq_true hmem⟩
    · exact ih _ d hd' p hp

theorem scrape_rerun_nil (ds : List Document) (existing : List String)
    (h : ∀ d ∈ ds, ∀ p ∈ extract_product_data d, p.url ∈ existing) :
    (scrape_all_pages existing ds).1 = [] := by
  induction ds generalizing existing with
  | nil => rfl
  | cons d ds ih =>
    have hnew : dedupNew existing (extract_product_data d) = [] := by
      refine List.filter_eq_nil_iff.mpr ?_
      intro p hp
      have := h d (List.mem_cons_self ..) p hp
      simp [this]
    simp only [scrape_all_pages, hnew, List.map_nil, List.append_nil,
      List.nil_append]
    exact ih existing fun d' hd' => h d' (List.mem_cons_of_mem _ hd')

/-! ### Shape of the ratings the code emits

Every non-sentinel rating the code builds is an f-string ending in the
literal "/5"; this suffix structure is exact in the embedding regardless of
how the numeric part is rendered. -/

theorem ratingStrat1_suffix {c : Fragment} {r : String}
    (h : ratingStrat1 c = some r) : ∃ v, r = v ++ "/5" := by
  unfold ratingStrat1 at h
  split at h
  · exact absurd h (by simp)
  · split at h
    · exact absurd h (by simp)
    · split at h
      · rename_i ip fp _
        exact ⟨pyFloatRepr ip fp, by injection h with h2; exact h2.symm⟩
      · exact absurd h (by simp)

theorem ratingStrat2_suffix {c : Fragment} {r : String}
    (h : ratingStrat2 c = some r) : ∃ v, r = v ++ "/5" := by
  unfold ratingStrat2 at h
  split at h
  · exact absurd h (by simp)
  · rename_i svgs _
    exact ⟨String.mk (natToChars ((svgs.filter
        (fun d => containsStr d "full-star")).length)) ++
        (if !(svgs.filter (fun d => containsStr d "half-star")).isEmpty
          then ".5" else ".0"),
      by injection h with h2; exact h2.symm⟩

theorem ratingStrat3_suffix {c : Fragment} {r : String}
    (h : ratingStrat3 c = some r) : ∃ v, r = v ++ "/5" := by
  unfold ratingStrat3 at h
  split at h
  · exact absurd h (by simp)
  · split at h
    · rename_i ip fp _
      exact ⟨pyFloatRepr ip fp, by injection h with h2; exact h2.symm⟩
    · exact absurd h (by simp)

theorem extract_star_rating_suffix (c : Option Fragment) :
    extract_star_rating c = "N/A" ∨ ∃ v, extract_star_rating c = v ++ "/5" := by
  cases c with
  | none => exact Or.inl rfl
  | some c =>
    rw [extract_star_rating]
    split
    · rename_i h; exact Or.inr (ratingStrat1_suffix h)
    · split
      · rename_i h; exact Or.inr (ratingStrat2_suffix h)
      · split
        · rename_i h; exact Or.inr (ratingStrat3_suffix h)
        · exact Or.inl rfl

/-! ### The seller field dichotomy -/

theorem is_sold_by_target_cases (c : Option Fragment) :
    is_sold_by_target c = "Yes" ∨ is_sold_by_target c = "No" := by
  cases c with
  | none => exact Or.inr rfl
  | some c =>
    rw [is_sold_by_target]
    split
    · exact Or.inl rfl
    · split
      · exact Or.inl rfl
      · split
        · exact Or.inl rfl
        · exact Or.inr rfl

/-! ### Equivalence of the inventory extractor with its specification -/

theorem any_or_distrib {α : Type} (ps : List α) (f g : α → Bool) :
    (ps.any fun p => f p || g p) = (ps.any f || ps.any g) := by
  induction ps with
  | nil => rfl
  | cons a t ih =>
    simp only [List.any_cons, ih]
    cases f a <;> cases g a <;> simp

theorem invAt_spec (l : List Char) :
    invAt l = specInvPatterns.any (fun p => specTokMatch p l) := by
  have h5 : ("only " : String).data.length = 5 := rfl
  simp only [invAt, specInvPatterns, List.any_cons, List.any_nil,
    specTokMatch, invOnlyLeft, invNumLeft, invOnlyStock, h5, Bool.or_false,
    Bool.and_true, Bool.or_assoc, Bool.and_assoc]

theorem invSearch_spec (l : List Char) :
    invSearch l = specInvPatterns.any (fun p => specTokSearch p l) := by
  induction l with
  | nil =>
    simp only [invSearch]
    have : ∀ p : List InvTok, specTokSearch p [] = specTokMatch p [] :=
      fun p => rfl
    simp only [this, invAt_spec]
  | cons c t ih =>
    simp only [invSearch, invAt_spec, ih]
    have : ∀ p : List InvTok, specTokSearch p (c :: t) =
        (specTokMatch p (c :: t) || specTokSearch p t) := fun p => rfl
    simp only [this, any_or_distrib]

theorem invMatches_spec (s : String) : invMatches s = specPhraseMatch s :=
  invSearch_spec _

/-! ### Symbolic evaluation of the URL pipeline on well-formed https URLs -/

theorem string_eq_of_data {s t : String} (h : s.data = t.data) : s = t := by
  cases s; cases t; cases h; rfl

theorem mk_ne_empty {l : List Char} (h : l ≠ []) : String.mk l ≠ "" := by
  intro he
  exact h (by simpa using congrArg String.data he)

theorem startsWith_slash {l : List Char} (h : startsWithC "/".data l = true) :
    ∃ t, l = '/' :: t := by
  cases l with
  | nil => exact absurd h (by simp [startsWithC])
  | cons c t =>
    refine ⟨t, ?_⟩
    have : ('/' == c) = true := by
      have := h
      simp only [startsWithC] at this
      simpa using this
    rw [show c = '/' from (eq_of_beq this).symm]

theorem splitScheme_https (X : List Char) (s0 : String) :
    splitScheme ('h' :: 't' :: 't' :: 'p' :: 's' :: ':' :: '/' :: '/' :: X) s0 =
      ("https", '/' :: '/' :: X) := rfl

theorem whatwg_https (X : List Char) :
    whatwgClean ('h' :: 't' :: 't' :: 'p' :: 's' :: ':' :: '/' :: '/' :: X) =
      'h' :: 't' :: 't' :: 'p' :: 's' :: ':' :: '/' :: '/' :: (X.filter keepChar) := by
  unfold whatwgClean
  rw [show ('h' :: 't' :: 't' :: 'p' :: 's' :: ':' :: '/' :: '/' :: X) =
      ['h', 't', 't', 'p', 's', ':', '/', '/'] ++ X from rfl]
  rw [show (['h', 't', 't', 'p', 's', ':', '/', '/'] ++ X).dropWhile isC0Space =
      ['h', 't', 't', 'p', 's', ':', '/', '/'] ++ X from rfl]
  rw [List.filter_append]
  rfl

/-- Shape of the part after the path: empty, or query-first, or
fragment-first. -/
def ExtShape (ext : List Char) : Prop :=
  ext = [] ∨ (∃ t, ext = '?' :: t) ∨ (∃ t, ext = '#' :: t)

theorem extShape_filter {ext : List Char} (h : ExtShape ext) :
    ExtShape (ext.filter keepChar) := by
  rcases h with rfl | ⟨t, rfl⟩ | ⟨t, rfl⟩
  · exact Or.inl rfl
  · exact Or.inr (Or.inl ⟨t.filter keepChar, rfl⟩)
  · exact Or.inr (Or.inr ⟨t.filter keepChar, rfl⟩)

theorem takeWhile_netloc (host path ext : List Char)
    (hhn : ∀ c ∈ host, notNetlocEnd c = true)
    (hp : path = [] ∨ startsWithC "/".data path = true)
    (hext : ExtShape ext) :
    (host ++ (path ++ ext)).takeWhile notNetlocEnd = host ∧
      (host ++ (path ++ ext)).dropWhile notNetlocEnd = path ++ ext := by
  have htail : ∀ l : List Char, l = path ++ ext →
      l.takeWhile notNetlocEnd = [] ∧ l.dropWhile notNetlocEnd = l := by
    intro l hl
    rcases hp with rfl | hsl
    · rw [List.nil_append] at hl
      rcases hext with rfl | ⟨t, rfl⟩ | ⟨t, rfl⟩ <;> subst hl <;> exact ⟨rfl, rfl⟩
    · obtain ⟨p', rfl⟩ := startsWith_slash hsl
      subst hl
      exact ⟨rfl, rfl⟩
  obtain ⟨h1, h2⟩ := htail (path ++ ext) rfl
  constructor
  · rw [takeWhile_app _ _ hhn, h1, List.append_nil]
  · rw [dropWhile_app _ _ hhn, h2]

theorem splitPath_eq (path ext : List Char)
    (hpd : ∀ c ∈ path, ¬c = '?' ∧ ¬c = '#')
    (hext : ExtShape ext) :
    (splitFirst '?' ((splitFirst '#' (path ++ ext)).1)).1 = path := by
  have hnh : '#' ∉ path := fun hm => (hpd _ hm).2 rfl
  have hnq : '?' ∉ path := fun hm => (hpd _ hm).1 rfl
  rw [splitFirst_app_of_not_mem _ _ _ hnh]
  rcases hext with rfl | ⟨t, rfl⟩ | ⟨t, rfl⟩
  · rw [show (splitFirst '#' ([] : List Char)).1 = [] from rfl, List.append_nil,
      splitFirst_of_not_mem _ _ hnq]
  · rw [show (splitFirst '#' ('?' :: t)).1 = '?' :: (splitFirst '#' t).1 from rfl]
    rw [splitFirst_app_of_not_mem _ _ _ hnq]
    rw [show (splitFirst '?' ('?' :: (splitFirst '#' t).1)).1 = [] from rfl,
      List.append_nil]
  · rw [show (splitFirst '#' ('#' :: t)).1 = [] from rfl, List.append_nil,
      splitFirst_of_not_mem _ _ hnq]

theorem urlsplit_render (host path ext : List Char) (s0 : String)
    (hhn : ∀ c ∈ host, notNetlocEnd c = true)
    (hhk : ∀ c ∈ host, keepChar c = true)
    (hp : path = [] ∨ startsWithC "/".data path = true)
    (hpd : ∀ c ∈ path, ¬c = '?' ∧ ¬c = '#')
    (hpk : ∀ c ∈ path, keepChar c = true)
    (hext : ExtShape ext) :
    ∃ qv fv,
      urlsplit (String.mk ('h' :: 't' :: 't' :: 'p' :: 's' :: ':' :: '/' :: '/' ::
        (host ++ (path ++ ext)))) s0 =
      ⟨"https", String.mk host, String.mk path, String.mk qv, String.mk fv⟩ := by
  refine ⟨(splitFirst '?' ((splitFirst '#' (path ++ ext.filter keepChar)).1)).2.getD [],
    (splitFirst '#' (path ++ ext.filter keepChar)).2.getD [], ?_⟩
  unfold urlsplit
  dsimp only
  rw [whatwg_https, List.filter_append, List.filter_append,
    List.filter_eq_self.mpr hhk, List.filter_eq_self.mpr hpk]
  rw [splitScheme_https]
  dsimp only
  rw [show startsWithC ['/', '/'] ('/' :: '/' :: (host ++ (path ++ ext.filter keepChar))) =
    true from rfl]
  simp only [if_true]
  rw [show ('/' :: '/' :: (host ++ (path ++ ext.filter keepChar))).drop 2 =
    host ++ (path ++ ext.filter keepChar) from rfl]
  obtain ⟨ht, hd⟩ := takeWhile_netloc host path (ext.filter keepChar) hhn hp
    (extShape_filter hext)
  rw [ht, hd, splitPath_eq path (ext.filter keepChar) hpd (extShape_filter hext)]

theorem urlparse_render (host path ext : List Char) (s0 : String)
    (hhn : ∀ c ∈ host, notNetlocEnd c = true)
    (hhk : ∀ c ∈ host, keepChar c = true)
    (hp : path = [] ∨ startsWithC "/".data path = true)
    (hpd : ∀ c ∈ path, ¬c = '?' ∧ ¬c = '#')
    (hpk : ∀ c ∈ path, keepChar c = true)
    (hsemi : ';' ∉ path)
    (hext : ExtShape ext) :
    ∃ qv fv,
      urlparse (String.mk ('h' :: 't' :: 't' :: 'p' :: 's' :: ':' :: '/' :: '/' ::
        (host ++ (path ++ ext)))) s0 =
      ⟨"https", String.mk host, String.mk path, "", String.mk qv, String.mk fv⟩ := by
  obtain ⟨qv, fv, hs⟩ := urlsplit_render host path ext s0 hhn hhk hp hpd hpk hext
  refine ⟨qv, fv, ?_⟩
  unfold urlparse
  rw [hs]
  dsimp only
  rw [if_neg (fun hand => hsemi hand.2)]

theorem urlunparse_https (host path qv fv : List Char) (hh : host ≠ [])
    (hp : path = [] ∨ startsWithC "/".data path = true) :
    urlunparse "https".data host path [] qv fv =
      'h' :: 't' :: 't' :: 'p' :: 's' :: ':' :: '/' :: '/' ::
        (host ++ (path ++
          ((if qv = [] then [] else '?' :: qv) ++
           (if fv = [] then [] else '#' :: fv)))) := by
  unfold urlunparse urlunsplit
  rw [if_neg (by simp : ¬(([] : List Char) ≠ []))]
  dsimp only
  have hfirst : host ≠ [] ∨ (path ≠ [] ∧ startsWithC "//".data path = true) :=
    Or.inl hh
  rw [if_pos hfirst]
  have hslash : ¬(path ≠ [] ∧ ¬startsWithC "/".data path = true) := by
    rcases hp with rfl | hsl
    · intro hand; exact hand.1 rfl
    · intro hand; exact hand.2 hsl
  rw [if_neg hslash]
  rw [if_pos (by simp : ("https".data : List Char) ≠ [])]
  rcases qv with _ | ⟨qc, qt⟩ <;> rcases fv with _ | ⟨fc, ft⟩ <;>
    simp [List.append_assoc]

theorem urlparse_base : urlparse baseUrl "" =
    ⟨"https", "www.target.com", "", "", "", ""⟩ := by
  decide

theorem urljoin_render (host path ext : List Char)
    (hh : host ≠ [])
    (hhn : ∀ c ∈ host, notNetlocEnd c = true)
    (hhk : ∀ c ∈ host, keepChar c = true)
    (hp : path = [] ∨ startsWithC "/".data path = true)
    (hpd : ∀ c ∈ path, ¬c = '?' ∧ ¬c = '#')
    (hpk : ∀ c ∈ path, keepChar c = true)
    (hsemi : ';' ∉ path)
    (hext : ExtShape ext) :
    ∃ ext2, ExtShape ext2 ∧
      urljoin baseUrl (String.mk ('h' :: 't' :: 't' :: 'p' :: 's' :: ':' :: '/' :: '/' ::
        (host ++ (path ++ ext)))) =
      String.mk ('h' :: 't' :: 't' :: 'p' :: 's' :: ':' :: '/' :: '/' ::
        (host ++ (path ++ ext2))) := by
  obtain ⟨qv, fv, hu⟩ :=
    urlparse_render host path ext "https" hhn hhk hp hpd hpk hsemi hext
  refine ⟨(if qv = [] then [] else '?' :: qv) ++ (if fv = [] then [] else '#' :: fv),
    ?_, ?_⟩
  · by_cases hq : qv = []
    · by_cases hf : fv = []
      · simp only [hq, hf, if_pos rfl, List.append_nil]
        exact Or.inl rfl
      · simp only [hq, if_pos rfl, if_neg hf, List.nil_append]
        exact Or.inr (Or.inr ⟨fv, rfl⟩)
    · simp only [if_neg hq, List.cons_append]
      exact Or.inr (Or.inl ⟨_, rfl⟩)
  · unfold urljoin
    rw [if_neg (by decide : ¬(baseUrl = ""))]
    rw [if_neg (mk_ne_empty (by simp))]
    rw [urlparse_base]
    dsimp only
    rw [hu]
    dsimp only
    rw [if_neg (by decide : ¬(("https" : String) ≠ "https" ∨
      ("https" : String) ∉ usesRelative))]
    rw [if_pos ⟨(by decide : ("https" : String) ∈ usesNetloc), mk_ne_empty hh⟩]
    refine congrArg String.mk ?_
    exact urlunparse_https host path qv fv hh hp

theorem normalizeIdentity_render (host path ext : List Char)
    (hh : host ≠ [])
    (hhn : ∀ c ∈ host, notNetlocEnd c = true)
    (hhk : ∀ c ∈ host, keepChar c = true)
    (hp : path = [] ∨ startsWithC "/".data path = true)
    (hpd : ∀ c ∈ path, ¬c = '?' ∧ ¬c = '#')
    (hpk : ∀ c ∈ path, keepChar c = true)
    (hsemi : ';' ∉ path)
    (hext : ExtShape ext) :
    normalizeIdentity (String.mk ('h' :: 't' :: 't' :: 'p' :: 's' :: ':' :: '/' :: '/' ::
        (host ++ (path ++ ext)))) =
      "https://" ++ (String.mk host ++ String.mk path) := by
  unfold normalizeIdentity
  obtain ⟨ext2, hshape2, hj⟩ :=
    urljoin_render host path ext hh hhn hhk hp hpd hpk hsemi hext
  rw [hj]
  obtain ⟨qv, fv, hp2⟩ :=
    urlparse_render host path ext2 "" hhn hhk hp hpd hpk hsemi hshape2
  rw [hp2]
  dsimp only
  refine string_eq_of_data ?_
  simp [data_append]

/-! ### The claims -/

/-- C3: a fragment with a resolvable identity (title link with an `href`) and
a nonempty title but no current-price marker produces no record: the loop
iteration returns no product (and, being a total function, raises nothing),
whatever the seen set is. -/
theorem c3_no_price_no_record (seen : List String) (c : Fragment)
    (link : Anchor) (hr : String)
    (htl : titleLink c = some link) (hhr : link.href = some hr)
    (htitle : link.text ≠ "") (hprice : currentPriceText c = none) :
    (processContainer seen c).1 = none := by
  by_cases hmem : normalizeIdentity hr ∈ seen
  · rw [processContainer_seen seen htl hhr hmem]
  · rw [processContainer_no_price seen htl hhr hmem htitle hprice]

/-- Witness for C3: the concrete priceless fragment `fragDelta` yields no
record. -/
theorem c3_witness :
    titleLink fragDelta = some ⟨some "/p/delta/-/A-44", some "product-title", "Delta"⟩ ∧
    currentPriceText fragDelta = none ∧
    (processContainer [] fragDelta).1 = none := by
  refine ⟨by decide, by decide, ?_⟩
  exact c3_no_price_no_record [] fragDelta
    ⟨some "/p/delta/-/A-44", some "product-title", "Delta"⟩ "/p/delta/-/A-44"
    (by decide) (by decide) (by decide) (by decide)

/-- C5: the rating extractor is total and returns the unknown sentinel on a
missing fragment and on any fragment with no rating signal (no accessibility
label containing "out of 5 stars", no rating-stars container, no "out of 5"
text node). -/
theorem c5_rating_unknown :
    extract_star_rating none = "N/A" ∧
    ∀ c : Fragment, (∀ e ∈ c.ariaElems, ariaRatingSel e = false) →
      c.starsSvgs = none →
      (∀ s ∈ c.strings, containsStr s "out of 5" = false) →
      extract_star_rating (some c) = "N/A" := by
  refine ⟨rfl, fun c h1 h2 h3 => ?_⟩
  have hs1 : ratingStrat1 c = none := by
    unfold ratingStrat1
    rw [List.find?_eq_none.mpr (fun e he => by simp [h1 e he])]
  have hs2 : ratingStrat2 c = none := by
    unfold ratingStrat2
    rw [h2]
  have hs3 : ratingStrat3 c = none := by
    unfold ratingStrat3
    rw [List.find?_eq_none.mpr (fun s hs => by simp [h3 s hs])]
  simp [extract_star_rating, hs1, hs2, hs3]

/-- Witness for C5: the signal-free fragment `fragEmpty` gets the sentinel. -/
theorem c5_witness : extract_star_rating (some fragEmpty) = "N/A" :=
  (c5_rating_unknown).2 fragEmpty (by decide) (by decide) (by decide)

/-- Counterexample for C4 as stated: a fragment does contain an element whose
accessibility label is "4.5 out of 5 stars", yet the extractor returns
"3.0/5", because an earlier element also matches the
`[aria-label*="out of 5 stars"]` selector and `select_one` takes the first. -/
theorem c4_counterexample :
    (∃ e ∈ fragTwoLabels.ariaElems, e.ariaLabel = some "4.5 out of 5 stars") ∧
    extract_star_rating (some fragTwoLabels) = "3.0/5" ∧
    extract_star_rating (some fragTwoLabels) ≠ "4.5/5" := by
  refine ⟨⟨⟨"span", some "4.5 out of 5 stars"⟩, by decide, rfl⟩, by decide, by decide⟩

/-- C4 amended: if the first element matching the accessibility-label
selector has label "4.5 out of 5 stars", the extractor returns exactly
"4.5/5" (strategy 1 wins before any other strategy is tried). -/
theorem c4_rating_accessibility_label (c : Fragment) (e : AriaElem)
    (hfind : c.ariaElems.find? ariaRatingSel = some e)
    (hlabel : e.ariaLabel = some "4.5 out of 5 stars") :
    extract_star_rating (some c) = "4.5/5" := by
  have h1 : ratingStrat1 c = some "4.5/5" := by
    unfold ratingStrat1
    rw [hfind]
    dsimp only
    rw [hlabel]
    decide
  simp [extract_star_rating, h1]

/-- Witness for C4's amended claim, on a fragment whose sole label is the
sample one. -/
theorem c4_witness : extract_star_rating (some fragOneLabel) = "4.5/5" :=
  c4_rating_accessibility_label fragOneLabel ⟨"span", some "4.5 out of 5 stars"⟩
    (by decide) rfl

/-- Counterexample for C2 as stated: both fragments of the document resolve to
the same identity, yet the document yields zero records for it (not exactly
one), because the first fragment lacks a price but still claims the identity
in the seen set. -/
theorem c2_counterexample :
    productContainers [fragBetaNoPrice, fragBetaValid] =
      [fragBetaNoPrice, fragBetaValid] ∧
    resolvesTo fragBetaNoPrice = some urlBeta ∧
    resolvesTo fragBetaValid = some urlBeta ∧
    (extract_product_data [fragBetaNoPrice, fragBetaValid]).filter
      (fun p => p.url == urlBeta) = [] := by
  refine ⟨by decide, by decide, by decide, by decide⟩

/-- C2 amended: within one document at most one record is emitted per
identity, and when the first fragment resolving to an identity is a valid
card (nonempty title, price present) the document yields exactly the record
assembled from that first fragment; all later fragments with the same
identity are dropped. -/
theorem c2_first_seen_wins (doc : Document) (l1 l2 : List Fragment)
    (c : Fragment) (link : Anchor) (hr pr : String)
    (hsplit : productContainers doc = l1 ++ c :: l2)
    (hfirst : ∀ x ∈ l1, resolvesTo x ≠ some (normalizeIdentity hr))
    (htl : titleLink c = some link) (hhr : link.href = some hr)
    (htitle : link.text ≠ "") (hprice : currentPriceText c = some pr) :
    (∀ v, ((extract_product_data doc).filter (fun p => p.url == v)).length ≤ 1) ∧
    (extract_product_data doc).filter (fun p => p.url == normalizeIdentity hr) =
      [buildProduct c (normalizeIdentity hr)] := by
  refine ⟨fun v => extract_count_le_one doc v, ?_⟩
  unfold extract_product_data
  rw [hsplit]
  exact extractGo_first_emit l1 c l2 [] hfirst (by simp) htl hhr htitle hprice

/-- Witness for C2's amended claim: the duplicated gamma card yields exactly
the record of its first rendering (price "$1.00", not "$2.00"). -/
theorem c2_witness :
    (extract_product_data [fragGamma1, fragGamma2]).filter
      (fun p => p.url == urlGamma) = [buildProduct fragGamma1 urlGamma] := by
  have h := c2_first_seen_wins [fragGamma1, fragGamma2] [] [fragGamma2]
    fragGamma1 ⟨some "/p/gamma/-/A-88", some "product-title", "Gamma"⟩
    "/p/gamma/-/A-88" "$1.00" (by decide) (by decide) (by decide) (by decide)
    (by decide) (by decide)
  have hu : normalizeIdentity "/p/gamma/-/A-88" = urlGamma := by decide
  rw [hu] at h
  exact h.2

/-- C7: in every record the assembler produces, `seller_name` is "Target" iff
`sold_by_target` is "Yes", and is the unknown sentinel otherwise. -/
theorem c7_seller_name (doc : Document) (p : Product)
    (hp : p ∈ extract_product_data doc) :
    (p.seller_name = "Target" ↔ p.sold_by_target = "Yes") ∧
    (p.sold_by_target ≠ "Yes" → p.seller_name = "N/A") := by
  obtain ⟨c, -, s, u, -, rfl, -⟩ := mem_extractGo (productContainers doc) [] hp
  have hname : (buildProduct c u).seller_name =
      (if is_sold_by_target (some c) = "Yes" then "Target" else "N/A") := rfl
  have hsold : (buildProduct c u).sold_by_target = is_sold_by_target (some c) :=
    rfl
  rcases is_sold_by_target_cases (some c) with hy | hn
  · rw [hname, hsold, hy]
    decide
  · rw [hname, hsold, hn]
    decide

/-- Witness for C7: the sample record carries `sold_by_target = "Yes"` and
`seller_name = "Target"`. -/
theorem c7_witness :
    prodHero ∈ extract_product_data [fragHero] ∧
    (prodHero.seller_name = "Target" ↔ prodHero.sold_by_target = "Yes") := by
  have hmem : prodHero ∈ extract_product_data [fragHero] := by decide
  exact ⟨hmem, (c7_seller_name [fragHero] prodHero hmem).1⟩

/-- Counterexample for C8 as stated: on the node "24/7 support, low stock"
the only matching phrase, "low stock", captures no number, so the claim's
recipe gives "Low Stock" — but the extractor returns "24", the first digit
run of the whole node; on "2 days only 5 left" the matched phrase's `N` is
"5", but the extractor returns "2". -/
theorem c8_counterexample :
    extract_inventory_count (some fragLowStock) = "24" ∧
    specInventoryCaptured (some fragLowStock) = "Low Stock" ∧
    extract_inventory_count (some fragOnlyFive) = "2" ∧
    specInventoryCaptured (some fragOnlyFive) = "5" := by
  decide

/-- C8 amended: on every fragment (including a missing one) the inventory
extractor finds the first text node matching one of the case-insensitive
phrases "only N left", "N left", "only N in stock", "low stock", and returns
the first digit run occurring anywhere in that node — not necessarily the
`N` of the matched phrase — else the literal "Low Stock" when the node has
no digit, else the unknown sentinel. -/
theorem c8_inventory_node_digits (c : Option Fragment) :
    extract_inventory_count c = nodeFirstDigitInventory c := by
  cases c with
  | none => rfl
  | some c =>
    unfold extract_inventory_count nodeFirstDigitInventory
    rw [show (fun s => invMatches s) = (fun s => specPhraseMatch s) from
      funext invMatches_spec]

/-- Counterexample for C9 as stated: a valid card whose accessibility label
reads "7 out of 5 stars" is emitted with rating "7.0/5", which is of the
`v/5` form with `v` outside `[0,5]`.  (`f"{float('7')}"` is exactly `7.0`,
so the decimal model is exact at this input.) -/
theorem c9_counterexample :
    ∃ p ∈ extract_product_data [fragSeven],
      p.rating = "7.0/5" ∧ ratingBounded p.rating = false := by
  decide

/-- C9 amended: every emitted record's rating is either the unknown sentinel
or a string ending in the literal "/5"; the numeric part is whatever Python
float rendering produces and is not bounded by 5 (overstated markup such as
"7 out of 5 stars" is propagated unchecked). -/
theorem c9_rating_suffix (doc : Document) (p : Product)
    (hp : p ∈ extract_product_data doc) :
    p.rating = "N/A" ∨ ∃ v, p.rating = v ++ "/5" := by
  obtain ⟨c, -, s, u, -, rfl, -⟩ := mem_extractGo (productContainers doc) [] hp
  exact extract_star_rating_suffix (some c)

/-- Witness for C9's amended claim on the sample document. -/
theorem c9_witness :
    prodHero ∈ extract_product_data [fragHero] ∧
    (prodHero.rating = "N/A" ∨ ∃ v, prodHero.rating = v ++ "/5") := by
  have hmem : prodHero ∈ extract_product_data [fragHero] := by decide
  exact ⟨hmem, c9_rating_suffix [fragHero] prodHero hmem⟩

/-- C10: the identity is recorded in the per-document seen set before the
title and price checks, so when the first fragment resolving to an identity
is dropped for an empty title or a missing price, the whole document yields
no record for that identity, later (even fully valid) fragments included. -/
theorem c10_seen_before_checks (doc : Document) (l1 l2 : List Fragment)
    (c : Fragment) (link : Anchor) (hr : String)
    (hsplit : productContainers doc = l1 ++ c :: l2)
    (hfirst : ∀ x ∈ l1, resolvesTo x ≠ some (normalizeIdentity hr))
    (htl : titleLink c = some link) (hhr : link.href = some hr)
    (hbad : link.text = "" ∨ currentPriceText c = none) :
    (extract_product_data doc).filter
      (fun p => p.url == normalizeIdentity hr) = [] := by
  unfold extract_product_data
  rw [hsplit]
  exact extractGo_first_none l1 c l2 [] hfirst (by simp) htl hhr hbad

/-- Witness for C10: a titleless first rendering of the eps card blocks the
later fully valid rendering, so the document yields no record for that
identity. -/
theorem c10_witness :
    resolvesTo fragEpsGood = some urlEps ∧
    titleLink fragEpsGood ≠ none ∧
    currentPriceText fragEpsGood ≠ none ∧
    (extract_product_data [fragEpsBad, fragEpsGood]).filter
      (fun p => p.url == urlEps) = [] := by
  refine ⟨by decide, by decide, by decide, ?_⟩
  have h := c10_seen_before_checks [fragEpsBad, fragEpsGood] [] [fragEpsGood]
    fragEpsBad ⟨some "/p/eps/-/A-55", some "product-title", ""⟩ "/p/eps/-/A-55"
    (by decide) (by decide) (by decide) (by decide) (Or.inl rfl)
  have hu : normalizeIdentity "/p/eps/-/A-55" = urlEps := by decide
  rw [hu] at h
  exact h

/-- C1: over any document sequence and any initial identity set, the dedup
layer emits only records whose identity was not initially known, at most one
record per identity across the whole run; two documents each yielding a card
with the same fresh identity produce exactly one combined novel record; and
re-running on the same documents with the now-updated identity set yields
zero novel records. -/
theorem c1_dedup_layer (existing : List String) (docs : List Document) :
    (∀ p ∈ (scrape_all_pages existing docs).1, p.url ∉ existing) ∧
    (∀ u, ((scrape_all_pages existing docs).1.filter
      (fun p => p.url == u)).length ≤ 1) ∧
    ((scrape_all_pages (scrape_all_pages existing docs).2 docs).1 = []) ∧
    (∀ d1 d2 : Document, ∀ u, u ∉ existing →
      (∃ p ∈ extract_product_data d1, p.url = u) →
      (∃ p ∈ extract_product_data d2, p.url = u) →
      ((scrape_all_pages existing [d1, d2]).1.filter
        (fun p => p.url == u)).length = 1) := by
  refine ⟨fun p hp => scrape_out_not_mem docs existing hp,
    fun u => scrape_count_le_one docs existing u,
    scrape_rerun_nil docs _ (scrape_extract_sub_final docs existing), ?_⟩
  rintro d1 d2 u hu ⟨p1, hp1, hpu1⟩ ⟨p2, hp2, hpu2⟩
  have hout : p1 ∈ (scrape_all_pages existing [d1, d2]).1 := by
    simp only [scrape_all_pages]
    exact List.mem_append_left _
      (List.mem_filter.mpr ⟨hp1, decide_eq_true (by rw [hpu1]; exact hu)⟩)
  have hmemf : p1 ∈ (scrape_all_pages existing [d1, d2]).1.filter
      (fun p => p.url == u) :=
    List.mem_filter.mpr ⟨hout, by simp [hpu1]⟩
  have hpos : 0 < ((scrape_all_pages existing [d1, d2]).1.filter
      (fun p => p.url == u)).length :=
    List.length_pos.mpr (fun hnil => by rw [hnil] at hmemf; simp at hmemf)
  have hle := scrape_count_le_one [d1, d2] existing u
  omega

/-- Witness for C1: the same document presented twice yields one combined
record and a rerun with the updated set yields none. -/
theorem c1_witness :
    ((scrape_all_pages [] [[fragHero], [fragHero]]).1.filter
      (fun p => p.url == urlHero)).length = 1 ∧
    (scrape_all_pages (scrape_all_pages [] [[fragHero], [fragHero]]).2
      [[fragHero], [fragHero]]).1 = [] := by
  have h := c1_dedup_layer [] [[fragHero], [fragHero]]
  refine ⟨?_, h.2.2.1⟩
  exact h.2.2.2 [fragHero] [fragHero] urlHero (by decide)
    ⟨prodHero, by decide, by decide⟩ ⟨prodHero, by decide, by decide⟩

/-- C6: identity normalization on well-formed https URLs (nonempty host
without `/`, `?`, `#` or removable control bytes; a path that is empty or
`/`-anchored, free of `?`, `#`, `;` and removable control bytes) is
idempotent, and two URLs differing only in their query string and/or
fragment identifier normalize to the same identity. -/
theorem c6_normalization (host path : String)
    (hh : host.data ≠ [])
    (hhost : ∀ c ∈ host.data,
      ¬(c = '/' ∨ c = '?' ∨ c = '#' ∨ c = '\t' ∨ c = '\r' ∨ c = '\n'))
    (hpath0 : path.data = [] ∨ path.data.head? = some '/')
    (hpath : ∀ c ∈ path.data,
      ¬(c = '?' ∨ c = '#' ∨ c = ';' ∨ c = '\t' ∨ c = '\r' ∨ c = '\n')) :
    (∀ q f, normalizeIdentity (normalizeIdentity (renderUrl host path q f)) =
        normalizeIdentity (renderUrl host path q f)) ∧
    (∀ q1 f1 q2 f2, normalizeIdentity (renderUrl host path q1 f1) =
        normalizeIdentity (renderUrl host path q2 f2)) := by
  simp only [not_or] at hhost hpath
  have hhn : ∀ c ∈ host.data, notNetlocEnd c = true := by
    intro c hc
    obtain ⟨h1, h2, h3, -⟩ := hhost c hc
    simp [notNetlocEnd, h1, h2, h3]
  have hhk : ∀ c ∈ host.data, keepChar c = true := by
    intro c hc
    obtain ⟨-, -, -, h4, h5, h6⟩ := hhost c hc
    simp [keepChar, h4, h5, h6]
  have hpd : ∀ c ∈ path.data, ¬c = '?' ∧ ¬c = '#' := by
    intro c hc
    obtain ⟨h1, h2, -⟩ := hpath c hc
    exact ⟨h1, h2⟩
  have hpk : ∀ c ∈ path.data, keepChar c = true := by
    intro c hc
    obtain ⟨-, -, -, h4, h5, h6⟩ := hpath c hc
    simp [keepChar, h4, h5, h6]
  have hsemi : ';' ∉ path.data := fun hm => (hpath ';' hm).2.2.1 rfl
  have hps : path.data = [] ∨ startsWithC "/".data path.data = true := by
    rcases hpath0 with h0 | h0
    · exact Or.inl h0
    · right
      cases hcase : path.data with
      | nil => rw [hcase] at h0; simp at h0
      | cons a t =>
        rw [hcase] at h0
        simp only [List.head?_cons, Option.some.injEq] at h0
        rw [h0]
        rfl
  have key : ∀ q f, normalizeIdentity (renderUrl host path q f) =
      "https://" ++ (String.mk host.data ++ String.mk path.data) := by
    intro q f
    have hshape : ExtShape (qext q ++ fext f) := by
      cases q with
      | some s => exact Or.inr (Or.inl ⟨_, rfl⟩)
      | none =>
        cases f with
        | some s => exact Or.inr (Or.inr ⟨_, rfl⟩)
        | none => exact Or.inl rfl
    have hrender : renderUrl host path q f =
        String.mk ('h' :: 't' :: 't' :: 'p' :: 's' :: ':' :: '/' :: '/' ::
          (host.data ++ (path.data ++ (qext q ++ fext f)))) := by
      refine string_eq_of_data ?_
      cases q <;> cases f <;>
        simp [renderUrl, data_append, qext, fext, List.append_assoc]
    rw [hrender]
    exact normalizeIdentity_render host.data path.data (qext q ++ fext f)
      hh hhn hhk hps hpd hpk hsemi hshape
  refine ⟨fun q f => ?_, fun q1 f1 q2 f2 => by rw [key, key]⟩
  rw [key q f]
  have hform : ("https://" ++ (String.mk host.data ++ String.mk path.data)) =
      String.mk ('h' :: 't' :: 't' :: 'p' :: 's' :: ':' :: '/' :: '/' ::
        (host.data ++ (path.data ++ []))) := by
    refine string_eq_of_data ?_
    simp [data_append]
  conv_lhs => rw [hform]
  exact normalizeIdentity_render host.data path.data [] hh hhn hhk hps hpd hpk
    hsemi (Or.inl rfl)

/-- Witness for C6 on a concrete product URL: idempotency and
query/fragment-irrelevance at explicit query strings. -/
theorem c6_witness :
    normalizeIdentity (normalizeIdentity
      (renderUrl "www.target.com" "/p/x/-/A-9" (some "ref=1") none)) =
      normalizeIdentity (renderUrl "www.target.com" "/p/x/-/A-9" (some "ref=1") none) ∧
    normalizeIdentity (renderUrl "www.target.com" "/p/x/-/A-9" (some "ref=1") none) =
      normalizeIdentity (renderUrl "www.target.com" "/p/x/-/A-9" (some "sort=price")
        (some "reviews")) := by
  have h := c6_normalization "www.target.com" "/p/x/-/A-9" (by decide)
    (by decide) (Or.inr (by decide)) (by decide)
  exact ⟨h.1 (some "ref=1") none,
    h.2 (some "ref=1") none (some "sort=price") (some "reviews")⟩

end Scrapper
